import Mathlib

/-!
Verification of the chat client's state synchronization core
(message store, participant store, sync controller, API reaction fallback).

The JavaScript source is shallowly embedded: JS objects become structures
with `Option`-typed fields (`none` models an absent/undefined field), JS
string falsiness (`""` and `undefined` are falsy) is modelled by `jsOrS`
and `jsTruthyS`, timestamps are modelled as integers, and the zustand
stores become explicit state-passing functions.
-/

set_option maxHeartbeats 1000000

/-- JS `a || b` for string-valued fields: `undefined` and `""` are falsy. -/
def jsOrS (a b : Option String) : Option String :=
  match a with
  | some s => if s = "" then b else some s
  | none => b

/-- JS truthiness of a string-valued field. -/
def jsTruthyS (a : Option String) : Bool :=
  match a with
  | some s => s ≠ ""
  | none => false

/-- A participant record (`{name, uuid}`), fields possibly absent. -/
structure Participant where
  name : Option String
  uuid : Option String
deriving DecidableEq, Repr

/-- A raw reaction event on a message: `{emoji, type, count, participants}`.
The source reads the emoji as `r.emoji || r.type` and tolerates absent
`count`/`participants`. -/
structure Reaction where
  emoji : Option String
  type : Option String
  count : Option Int
  participants : Option (List String)
deriving DecidableEq, Repr

/-- A message record as handled by `messageStore.js`; every field may be
absent on raw server input and is defaulted by the ingestion paths. -/
structure Message where
  uuid : Option String
  text : Option String
  createdAt : Option String
  status : Option String
  authorUuid : Option String
  participant : Option Participant
  reactions : Option (List Reaction)
  hasReactions : Option Bool
deriving DecidableEq, Repr

/-- State of the zustand message store (persistent fields only). -/
structure MessageStoreState where
  messages : List Message
  loading : Bool
  error : Option String
  lastUpdateTime : Option Int
deriving DecidableEq, Repr

def initialMessageStore : MessageStoreState :=
  { messages := [], loading := false, error := none, lastUpdateTime := none }

/-- The default participant object `{name:'Unknown User', uuid:'unknown'}`. -/
def unknownParticipant : Participant :=
  { name := some "Unknown User", uuid := some "unknown" }

/-- The per-message normalization step inside `setMessages` (lines 37-57):
defaults `participant`, `uuid` (synthesized fallback id), `text`,
`createdAt`, `status`, `reactions`, and always recomputes `hasReactions`. -/
def setMessagesProcess (fallbackId : String) (nowIso : String) (msg : Message) : Message :=
  let reactions := msg.reactions.getD []
  { msg with
    participant := some (msg.participant.getD unknownParticipant),
    uuid := jsOrS msg.uuid (some fallbackId),
    text := jsOrS msg.text (some ""),
    createdAt := jsOrS msg.createdAt (some nowIso),
    status := jsOrS msg.status (some "sent"),
    reactions := some reactions,
    hasReactions := some (decide (reactions.length > 0)) }

/-- `setMessages(msgs)` (messageStore.js:22-65): filters out non-object
entries (modelled by `none`), normalizes each survivor, and replaces the
whole list.  `fallback i` models the synthesized
`fallback-${Date.now()}-${Math.random()}` id of the i-th valid entry. -/
def setMessages (fallback : Nat → String) (nowIso : String) (nowMs : Int)
    (msgs : List (Option Message)) (st : MessageStoreState) : MessageStoreState :=
  let validMessages := (msgs.filterMap id).enum.map
    (fun p => setMessagesProcess (fallback p.1) nowIso p.2)
  { st with messages := validMessages, lastUpdateTime := some nowMs, error := none }

/-- Field defaulting performed by `addMessage` (messageStore.js:87-109),
including the extra participant sub-field validation. -/
def addMessageProcess (nowIso : String) (msg : Message) : Message :=
  let p0 := msg.participant.getD unknownParticipant
  let p1 : Participant :=
    { name := jsOrS p0.name (some "Unknown User"),
      uuid := jsOrS p0.uuid (some "unknown") }
  let reactions := msg.reactions.getD []
  { msg with
    participant := some p1,
    text := jsOrS msg.text (some ""),
    createdAt := jsOrS msg.createdAt (some nowIso),
    status := jsOrS msg.status (some "sent"),
    reactions := some reactions,
    hasReactions := some (decide (reactions.length > 0)) }

/-- `addMessage(msg)` (messageStore.js:67-123): requires a truthy uuid,
skips if a message with the same uuid already exists, otherwise prepends
the defaulted message. -/
def addMessage (nowIso : String) (nowMs : Int) (msg : Message)
    (st : MessageStoreState) : MessageStoreState :=
  if ¬ jsTruthyS msg.uuid then st
  else if st.messages.any (fun m => m.uuid == msg.uuid) then st
  else { st with
    messages := addMessageProcess nowIso msg :: st.messages,
    lastUpdateTime := some nowMs }

/-- Field defaulting performed by `addMessages` (messageStore.js:137-145):
only `participant`, `reactions` and `hasReactions` are defaulted here. -/
def addMessagesProcess (msg : Message) : Message :=
  let reactions := msg.reactions.getD []
  { msg with
    participant := some (msg.participant.getD unknownParticipant),
    reactions := some reactions,
    hasReactions := some (decide (reactions.length > 0)) }

/-- `addMessages(newMessages)` (messageStore.js:125-154): drops falsy
entries and entries whose uuid is falsy or already present in the store,
then prepends the remaining (processed) messages. -/
def addMessages (nowMs : Int) (newMessages : List (Option Message))
    (st : MessageStoreState) : MessageStoreState :=
  let existingUuids := st.messages.map Message.uuid
  let uniqueNewMessages := ((newMessages.filterMap id).filter
      (fun m => jsTruthyS m.uuid && !(existingUuids.contains m.uuid))).map addMessagesProcess
  if uniqueNewMessages.length > 0 then
    { st with
      messages := uniqueNewMessages ++ st.messages,
      lastUpdateTime := some nowMs }
  else st

/-- `removeMessage(uuid)` (messageStore.js:216-236). -/
def removeMessage (nowMs : Int) (uuid : String) (st : MessageStoreState) :
    MessageStoreState :=
  if uuid = "" then st
  else
    let filteredMessages := st.messages.filter (fun m => !(m.uuid == some uuid))
    if filteredMessages.length = st.messages.length then st
    else { st with messages := filteredMessages, lastUpdateTime := some nowMs }

/-- The merge performed by `updateMessage` (messageStore.js:178-197):
spread of the original under the updates, with `participant` kept from the
original unless the update carries a participant with a truthy name, and
`reactions` kept from the original unless the update carries an array;
`hasReactions` is always recomputed.  An absent field of `updates` is
modelled by `none`. -/
def mergeMessage (original updates : Message) : Message :=
  let participant : Option Participant :=
    match updates.participant with
    | some q => if jsTruthyS q.name then some q
                else some (original.participant.getD unknownParticipant)
    | none => some (original.participant.getD unknownParticipant)
  let reactions : List Reaction :=
    match updates.reactions with
    | some l => l
    | none => original.reactions.getD []
  { uuid := updates.uuid <|> original.uuid,
    text := updates.text <|> original.text,
    createdAt := updates.createdAt <|> original.createdAt,
    status := updates.status <|> original.status,
    authorUuid := updates.authorUuid <|> original.authorUuid,
    participant := participant,
    reactions := some reactions,
    hasReactions := some (decide (reactions.length > 0)) }

/-- `updateMessage(uuid, updates)` (messageStore.js:156-214). -/
def updateMessage (nowMs : Int) (uuid : String) (updates : Message)
    (st : MessageStoreState) : MessageStoreState :=
  if uuid = "" then st
  else
    match st.messages.findIdx? (fun m => m.uuid == some uuid) with
    | none => st
    | some i =>
      match st.messages[i]? with
      | none => st
      | some originalMessage =>
        { st with
          messages := st.messages.set i (mergeMessage originalMessage updates),
          lastUpdateTime := some nowMs }

/-- `clearMessages()` (messageStore.js:342-346). -/
def clearMessages (st : MessageStoreState) : MessageStoreState :=
  { st with messages := [], lastUpdateTime := none, error := none }

/-- `getMessageById(uuid)` (messageStore.js:352-354). -/
def getMessageById (st : MessageStoreState) (uuid : String) : Option Message :=
  st.messages.find? (fun m => m.uuid == some uuid)

/-- The emoji key of a raw reaction entry, as read by the source:
`r.emoji || r.type`. -/
def keyOf (r : Reaction) : Option String :=
  jsOrS r.emoji r.type

/-- `(r.emoji || r.type) === emoji`. -/
def keyMatch (r : Reaction) (emoji : String) : Bool :=
  keyOf r == some emoji

/-- `r.participants?.includes(userId)` (falsy when `participants` absent). -/
def partsIncludes (r : Reaction) (userId : String) : Bool :=
  (r.participants.getD []).contains userId

/-- The predicate of the first `findIndex` in `addReaction`
(messageStore.js:260-262). -/
def reactHit (emoji userId : String) (r : Reaction) : Bool :=
  keyMatch r emoji && partsIncludes r userId

/-- The new reaction entry created by `addReaction` (messageStore.js:302-310). -/
def freshReaction (emoji userId : String) : Reaction :=
  { emoji := some emoji, type := some emoji, count := some 1,
    participants := some [userId] }

/-- The entry update on the remove branch (messageStore.js:276-280). -/
def removeUpd (r : Reaction) (updatedParticipants : List String) : Reaction :=
  { r with count := some (updatedParticipants.length : Int),
           participants := some updatedParticipants }

/-- The entry update on the add-to-existing-emoji branch
(messageStore.js:291-299). -/
def addUpd (userId : String) (r : Reaction) : Reaction :=
  { r with count := some (r.count.getD 0 + 1),
           participants := some (r.participants.getD [] ++ [userId]) }

/-- The reactions-list transformation inside `addReaction`
(messageStore.js:256-312): if `userId` already reacted with `emoji`,
remove it there (dropping the entry when its participant list empties);
otherwise add `userId` to the first entry for `emoji`, or append a fresh
entry when none exists. -/
def toggleReactionList (emoji userId : String) (rs : List Reaction) : List Reaction :=
  match rs.findIdx? (reactHit emoji userId) with
  | some i =>
    match rs[i]? with
    | none => rs
    | some reaction =>
      let updatedParticipants := (reaction.participants.getD []).filter (fun p => p != userId)
      if updatedParticipants.isEmpty then rs.eraseIdx i
      else rs.set i (removeUpd reaction updatedParticipants)
  | none =>
    match rs.findIdx? (fun r => keyMatch r emoji) with
    | some j =>
      match rs[j]? with
      | none => rs
      | some reaction => rs.set j (addUpd userId reaction)
    | none => rs ++ [freshReaction emoji userId]

/-- The replacement message built by `addReaction` (messageStore.js:315-319). -/
def reactMsgUpdate (emoji userId : String) (message : Message) : Message :=
  let updatedReactions := toggleReactionList emoji userId (message.reactions.getD [])
  { message with
    reactions := some updatedReactions,
    hasReactions := some (decide (updatedReactions.length > 0)) }

/-- `addReaction(messageUuid, emoji, userId)` (messageStore.js:242-330). -/
def addReaction (nowMs : Int) (messageUuid emoji userId : String)
    (st : MessageStoreState) : MessageStoreState :=
  if messageUuid = "" ∨ emoji = "" then st
  else
    match st.messages.findIdx? (fun m => m.uuid == some messageUuid) with
    | none => st
    | some i =>
      match st.messages[i]? with
      | none => st
      | some message =>
        { st with
          messages := st.messages.set i (reactMsgUpdate emoji userId message),
          lastUpdateTime := some nowMs }

/-!  Participant store (`participantStore.js`).  The JS lookup object is
modelled as an insertion-ordered association list with string keys. -/

structure ParticipantStoreState where
  participants : List (String × Participant)
  loading : Bool
  error : Option String
  lastUpdateTime : Option Int
deriving DecidableEq, Repr

def initialParticipantStore : ParticipantStoreState :=
  { participants := [], loading := false, error := none, lastUpdateTime := none }

/-- Object property lookup `participants[uuid]`. -/
def lookupParticipant (uuid : String) (l : List (String × Participant)) :
    Option Participant :=
  (l.find? (fun kv => kv.1 == uuid)).map Prod.snd

/-- Object spread `{...obj, [uuid]: v}`: an existing key keeps its position,
a new key is appended. -/
def setKeyed (uuid : String) (v : Participant) :
    List (String × Participant) → List (String × Participant)
  | [] => [(uuid, v)]
  | kv :: rest => if kv.1 = uuid then (uuid, v) :: rest else kv :: setKeyed uuid v rest

/-- Object spread `{...existingParticipant, ...updates}`. -/
def mergeParticipant (existing updates : Participant) : Participant :=
  { name := updates.name <|> existing.name,
    uuid := updates.uuid <|> existing.uuid }

/-- `updateParticipant(uuid, updates)` (participantStore.js:41-54): only
merges when the uuid is already present. -/
def updateParticipant (nowMs : Int) (uuid : String) (updates : Participant)
    (st : ParticipantStoreState) : ParticipantStoreState :=
  match lookupParticipant uuid st.participants with
  | none => st
  | some existingParticipant =>
    { st with
      participants := setKeyed uuid (mergeParticipant existingParticipant updates) st.participants,
      lastUpdateTime := some nowMs }

/-- `clearParticipants()` (participantStore.js:71-75). -/
def clearParticipants (st : ParticipantStoreState) : ParticipantStoreState :=
  { st with participants := [], lastUpdateTime := none, error := none }

/-!  Sync controller (`useRealtimeUpdates.js`, src/unnamed/part_012).
Timestamps are integers; `dateGetTime` abstracts `new Date(x).getTime()`.
A settled fetch result is `Except.ok` (fulfilled) or `Except.error`
(rejected), matching `Promise.allSettled`. -/

structure SyncState where
  msgStore : MessageStoreState
  partStore : ParticipantStoreState
  lastUpdate : Int
deriving DecidableEq, Repr

/-- One cycle's settled fetch results and the ambient `Date.now()`. -/
structure SyncInput where
  mRes : Except Unit (List Message)
  pRes : Except Unit (List Participant)
  nowMs : Int

/-- The per-message transform in `performSync` (part_012:60-67): ensure
participant data is present, deriving the uuid from `authorUuid`. -/
def processSyncMessage (message : Message) : Message :=
  { message with
    participant := some (message.participant.getD
      { uuid := jsOrS message.authorUuid (some "unknown"),
        name := some "Unknown User" }) }

/-- `Math.max(...l)` over a nonempty integer list (callers guard emptiness). -/
def jsMaxIntList : List Int → Int
  | [] => 0
  | t :: ts => ts.foldl max t

/-- `performSync` (part_012:37-122): apply fulfilled message deltas to the
message store and advance the cursor, then apply fulfilled participant
deltas; each branch runs regardless of the other result. -/
def performSync (dateGetTime : Option String → Int) (inp : SyncInput)
    (s : SyncState) : SyncState :=
  let s1 := match inp.mRes with
    | Except.ok msgs =>
      if msgs.length > 0 then
        let processedMessages := msgs.map processSyncMessage
        let latestMessageTime :=
          jsMaxIntList (processedMessages.map (fun m => dateGetTime m.createdAt))
        { s with
          msgStore := addMessages inp.nowMs (processedMessages.map some) s.msgStore,
          lastUpdate := max s.lastUpdate latestMessageTime }
      else s
    | Except.error _ => s
  match inp.pRes with
  | Except.ok ps =>
    if ps.length > 0 then
      { s1 with partStore :=
          (ps.foldl
            (fun acc participant =>
              updateParticipant inp.nowMs (participant.uuid.getD "undefined") participant acc)
            s1.partStore) }
    else s1
  | Except.error _ => s1

/-- A sequence of sync cycles. -/
def runSync (dateGetTime : Option String → Int) (inps : List SyncInput)
    (s : SyncState) : SyncState :=
  inps.foldl (fun acc inp => performSync dateGetTime inp acc) s

/-- `handleSessionChange(newSessionUuid)` (part_012:181-202): a changed
session uuid clears both stores and resets the cursor to `Date.now()`. -/
def handleSessionChange (nowMs : Int) (sessionUuid newSessionUuid : String)
    (s : SyncState) : SyncState :=
  if newSessionUuid ≠ sessionUuid then
    { msgStore := clearMessages s.msgStore,
      partStore := clearParticipants s.partStore,
      lastUpdate := nowMs }
  else s

/-!  API layer for reactions (`apiService.js`, src/unnamed/part_003) and the
UI fallback (`handleReact`, src/unnamed/part_004). -/

structure ApiError where
  status : Int
deriving DecidableEq, Repr

/-- The parsed JSON body of a reaction-endpoint response; the local
fallback object is `{success:false, reason:'endpoint_not_implemented'}`. -/
structure ReactionCallResult where
  success : Option Bool
  reason : Option String
deriving DecidableEq, Repr

structure HttpResponse where
  ok : Bool
  status : Int
  body : ReactionCallResult
deriving DecidableEq, Repr

/-- `handleApiResponse` (part_003:30-51): non-2xx responses throw an
`ApiError` carrying the HTTP status. -/
def handleApiResponse (response : HttpResponse) : Except ApiError ReactionCallResult :=
  if response.ok then Except.ok response.body
  else Except.error { status := response.status }

/-- `apiService.addReaction` (part_003:183-206): a 404 is converted into a
non-error "endpoint not implemented" result; other errors propagate. -/
def apiAddReaction (response : HttpResponse) : Except ApiError ReactionCallResult :=
  match handleApiResponse response with
  | Except.ok data => Except.ok data
  | Except.error e =>
    if e.status = 404 then
      Except.ok { success := some false, reason := some "endpoint_not_implemented" }
    else Except.error e

/-- `handleReact` (part_004:1385-1399): on a not-implemented result or a
thrown error, apply the reaction to the local store as user `'you'`. -/
def handleReact (nowMs : Int) (messageUuid emoji : String)
    (apiResult : Except ApiError ReactionCallResult)
    (st : MessageStoreState) : MessageStoreState :=
  match apiResult with
  | Except.ok result =>
    if result.success == some false && result.reason == some "endpoint_not_implemented" then
      addReaction nowMs messageUuid emoji "you" st
    else st
  | Except.error _ => addReaction nowMs messageUuid emoji "you" st

/-!  Definitions supporting the claims. -/

/-- The cache never holds two entries with the same uuid. -/
def NoDupUuids (msgs : List Message) : Prop :=
  (msgs.map Message.uuid).Nodup

instance (msgs : List Message) : Decidable (NoDupUuids msgs) :=
  List.nodupDecidable _

/-- One call to an incremental message-cache mutator, together with the
ambient clock values it reads. -/
inductive MsgOp where
  | add (nowIso : String) (nowMs : Int) (msg : Message)
  | addMany (nowMs : Int) (batch : List (Option Message))
  | remove (nowMs : Int) (uuid : String)

def applyMsgOp : MsgOp → MessageStoreState → MessageStoreState
  | MsgOp.add nowIso nowMs msg, st => addMessage nowIso nowMs msg st
  | MsgOp.addMany nowMs batch, st => addMessages nowMs batch st
  | MsgOp.remove nowMs uuid, st => removeMessage nowMs uuid st

def applyMsgOps (ops : List MsgOp) (st : MessageStoreState) : MessageStoreState :=
  ops.foldl (fun acc op => applyMsgOp op acc) st

/-- Batch sanity for `addMessages`: the valid entries (objects with a
truthy uuid) of a single batch carry pairwise-distinct uuids. -/
def MsgOpOk : MsgOp → Prop
  | MsgOp.add _ _ _ => True
  | MsgOp.addMany _ batch =>
      (((batch.filterMap id).filter (fun m => jsTruthyS m.uuid)).map Message.uuid).Nodup
  | MsgOp.remove _ _ => True

instance (op : MsgOp) : Decidable (MsgOpOk op) := by
  cases op with
  | add nowIso nowMs msg => exact isTrue trivial
  | addMany nowMs batch => exact List.nodupDecidable _
  | remove nowMs uuid => exact isTrue trivial

/-- The first reaction entry for an emoji key, as read by every consumer
of the raw reactions list. -/
def entryFor (rs : List Reaction) (emoji : String) : Option Reaction :=
  rs.find? (fun r => keyMatch r emoji)

/-- The derived participant set of an emoji's tally. -/
def participantsAt (rs : List Reaction) (emoji : String) : Finset String :=
  ((entryFor rs emoji).map (fun r => (r.participants.getD []).toFinset)).getD ∅

/-- The derived count of an emoji's tally. -/
def countAt (rs : List Reaction) (emoji : String) : Int :=
  ((entryFor rs emoji).map (fun r => r.count.getD 0)).getD 0

/-- The derived reaction tally of a reactions list at one emoji. -/
def reactionTally (rs : List Reaction) (emoji : String) : Int × Finset String :=
  (countAt rs emoji, participantsAt rs emoji)

/-- A single reaction entry is well-formed: it has a nonempty,
duplicate-free participant list and a count equal to its length. -/
def reactionWf (r : Reaction) : Prop :=
  r.participants = some (r.participants.getD []) ∧
  r.participants.getD [] ≠ [] ∧
  (r.participants.getD []).Nodup ∧
  r.count = some ((r.participants.getD []).length : Int)

instance (r : Reaction) : Decidable (reactionWf r) := by
  unfold reactionWf; infer_instance

/-- A reactions list is well-formed: every entry is well-formed and the
emoji keys are pairwise distinct. -/
def wfReactions (rs : List Reaction) : Prop :=
  (∀ r ∈ rs, reactionWf r) ∧ (rs.map keyOf).Nodup

instance (rs : List Reaction) : Decidable (wfReactions rs) := by
  unfold wfReactions; infer_instance

/-- The reactions list of an optional cache message (`[]` when absent). -/
def reactionsOfOpt : Option Message → List Reaction
  | some m => m.reactions.getD []
  | none => []

/-- The derived tally of an optional cache message. -/
def msgTally (o : Option Message) (emoji : String) : Int × Finset String :=
  reactionTally (reactionsOfOpt o) emoji

/-- Truthiness of `updates.participant && updates.participant.name`. -/
def participantNameTruthy : Option Participant → Bool
  | some q => jsTruthyS q.name
  | none => false

/-!  Concrete fixtures used by witnesses and counterexamples. -/

/-- A bare message record with uuid `"a"`. -/
def exMsgA : Message :=
  { uuid := some "a", text := some "hi", createdAt := some "2024-01-01",
    status := none, authorUuid := none, participant := none,
    reactions := none, hasReactions := none }

/-- A message with one well-formed reaction entry `x : {count 2, [u, a]}`. -/
def exMsgReacted : Message :=
  { uuid := some "m1", text := some "hello", createdAt := some "2024-01-01",
    status := some "sent", authorUuid := some "alice",
    participant := some { name := some "Alice", uuid := some "alice" },
    reactions := some [{ emoji := some "x", type := none, count := some 2,
                         participants := some ["u", "a"] }],
    hasReactions := some true }

/-- A store whose only message is `exMsgReacted`. -/
def exStoreReacted : MessageStoreState :=
  { messages := [exMsgReacted], loading := false, error := none,
    lastUpdateTime := none }

/-- A message with no reactions, for the toggle scenario. -/
def exMsgPlain : Message :=
  { uuid := some "m1", text := some "hello", createdAt := some "2024-01-01",
    status := some "sent", authorUuid := some "alice",
    participant := some { name := some "Alice", uuid := some "alice" },
    reactions := some [], hasReactions := some false }

/-- A store whose only message is `exMsgPlain`. -/
def exStorePlain : MessageStoreState :=
  { messages := [exMsgPlain], loading := false, error := none,
    lastUpdateTime := none }

/-- A sync input: one fetched message, participant fetch rejected. -/
def exSyncInput : SyncInput :=
  { mRes := Except.ok [exMsgA], pRes := Except.error (), nowMs := 100 }

/-- A sync state with cursor 50 over empty stores. -/
def exSyncState : SyncState :=
  { msgStore := initialMessageStore, partStore := initialParticipantStore,
    lastUpdate := 50 }

/-- A fixed date parser for witnesses. -/
def exDgt : Option String → Int := fun _ => 77

/-- A populated sync state (one message, one participant). -/
def exFullSyncState : SyncState :=
  { msgStore := exStorePlain,
    partStore :=
      { participants := [("alice", { name := some "Alice", uuid := some "alice" })],
        loading := false, error := none, lastUpdateTime := some 1 },
    lastUpdate := 10 }

/-- A raw message record with every field absent. -/
def exRawEmpty : Message :=
  { uuid := none, text := none, createdAt := none, status := none,
    authorUuid := none, participant := none, reactions := none,
    hasReactions := none }

/-- A partial update carrying only new text (no participant). -/
def exUpdates : Message :=
  { uuid := none, text := some "edited", createdAt := none, status := none,
    authorUuid := none, participant := none, reactions := none,
    hasReactions := none }

/-- Alice, the author of the fixture messages. -/
def exAlice : Participant := { name := some "Alice", uuid := some "alice" }

/-- A 404 response from the reaction endpoint. -/
def exResponse404 : HttpResponse :=
  { ok := false, status := 404, body := { success := none, reason := none } }

/-- A sequence exercising all three mutators from the empty store. -/
def exOps : List MsgOp :=
  [MsgOp.add "2024-01-02" 0 exMsgA,
   MsgOp.addMany 1 [some exMsgPlain, none, some exMsgA],
   MsgOp.remove 2 "a"]

/-!  Helper lemmas: `find?` / `findIdx?` / `set` interplay. -/

theorem findIdx?_of_find?_eq_some {α : Type} {p : α → Bool} {l : List α} {a : α}
    (h : l.find? p = some a) : ∃ i, l.findIdx? p = some i ∧ l[i]? = some a := by
  induction l with
  | nil => simp at h
  | cons x xs ih =>
    by_cases hx : p x
    · rw [List.find?_cons_of_pos _ hx] at h
      exact ⟨0, by simp [List.findIdx?_cons, hx], by simpa using h⟩
    · rw [List.find?_cons_of_neg _ hx] at h
      obtain ⟨i, hi, ha⟩ := ih h
      refine ⟨i + 1, ?_, by simpa using ha⟩
      simp [List.findIdx?_cons, hx, List.findIdx?_succ, hi]

theorem find?_of_findIdx?_getElem? {α : Type} {p : α → Bool} {l : List α} {i : Nat} {a : α}
    (hi : l.findIdx? p = some i) (ha : l[i]? = some a) : l.find? p = some a := by
  induction l generalizing i with
  | nil => simp at hi
  | cons x xs ih =>
    by_cases hx : p x
    · simp [List.findIdx?_cons, hx] at hi
      subst hi
      simp at ha
      subst ha
      exact List.find?_cons_of_pos _ hx
    · simp [List.findIdx?_cons, hx, List.findIdx?_succ] at hi
      obtain ⟨j, hj, rfl⟩ := hi
      rw [List.find?_cons_of_neg _ hx]
      exact ih hj (by simpa using ha)

theorem findIdx?_set_self {α : Type} {p : α → Bool} {l : List α} {i : Nat} {a : α}
    (hi : l.findIdx? p = some i) (ha : p a = true) :
    (l.set i a).findIdx? p = some i := by
  induction l generalizing i with
  | nil => simp at hi
  | cons x xs ih =>
    by_cases hx : p x
    · simp [List.findIdx?_cons, hx] at hi
      subst hi
      simp [List.findIdx?_cons, ha]
    · simp [List.findIdx?_cons, hx, List.findIdx?_succ] at hi
      obtain ⟨j, hj, rfl⟩ := hi
      simp [List.findIdx?_cons, hx, List.findIdx?_succ, ih hj]

theorem getElem?_set_self_of_lt {α : Type} {l : List α} {i : Nat} {a b : α}
    (h : l[i]? = some b) : (l.set i a)[i]? = some a := by
  have hlt : i < l.length := by
    rcases List.getElem?_eq_some.mp h with ⟨hl, _⟩
    exact hl
  simp [List.getElem?_set_self hlt]

/-!  Structural behavior of `toggleReactionList`. -/

theorem toggle_nil (e u : String) :
    toggleReactionList e u [] = [freshReaction e u] := rfl

theorem toggle_cons_skip {e u : String} {r : Reaction} {rest : List Reaction}
    (hk : keyMatch r e = false) :
    toggleReactionList e u (r :: rest) = r :: toggleReactionList e u rest := by
  have hp : reactHit e u r = false := by simp [reactHit, hk]
  have hfi : (r :: rest).findIdx? (reactHit e u) =
      (rest.findIdx? (reactHit e u)).map (· + 1) := by
    simp [List.findIdx?_cons, hp, List.findIdx?_succ]
  have hfj : (r :: rest).findIdx? (fun x => keyMatch x e) =
      (rest.findIdx? (fun x => keyMatch x e)).map (· + 1) := by
    simp [List.findIdx?_cons, hk, List.findIdx?_succ]
  unfold toggleReactionList
  rw [hfi, hfj]
  rcases h1 : rest.findIdx? (reactHit e u) with _ | i
  · simp only [Option.map_none']
    rcases h2 : rest.findIdx? (fun x => keyMatch x e) with _ | j
    · simp
    · simp only [Option.map_some', List.getElem?_cons_succ]
      rcases h3 : rest[j]? with _ | reaction
      · rfl
      · simp [List.set_cons_succ]
  · simp only [Option.map_some', List.getElem?_cons_succ]
    rcases h2 : rest[i]? with _ | reaction
    · rfl
    · by_cases hemp : ((reaction.participants.getD []).filter (fun p => p != u)).isEmpty
      · simp [hemp, List.eraseIdx_cons_succ]
      · simp [hemp, List.set_cons_succ]

theorem toggle_cons_hit_mem {e u : String} {r : Reaction} {rest : List Reaction}
    (hk : keyMatch r e = true) (hu : partsIncludes r u = true) :
    toggleReactionList e u (r :: rest) =
      if ((r.participants.getD []).filter (fun p => p != u)).isEmpty then rest
      else removeUpd r ((r.participants.getD []).filter (fun p => p != u)) :: rest := by
  have hp : reactHit e u r = true := by simp [reactHit, hk, hu]
  unfold toggleReactionList
  simp only [List.findIdx?_cons, hp, if_true, List.getElem?_cons_zero]
  split <;> simp_all

theorem toggle_cons_hit_nomem {e u : String} {r : Reaction} {rest : List Reaction}
    (hk : keyMatch r e = true) (hu : partsIncludes r u = false)
    (hrest : ∀ r' ∈ rest, reactHit e u r' = false) :
    toggleReactionList e u (r :: rest) = addUpd u r :: rest := by
  have hp : reactHit e u r = false := by simp [reactHit, hk, hu]
  have hnone : rest.findIdx? (reactHit e u) = none := by
    rw [List.findIdx?_eq_none_iff]
    exact hrest
  unfold toggleReactionList
  simp [List.findIdx?_cons, hp, hk, List.findIdx?_succ, hnone]

/-!  Tally-level lemmas. -/

theorem keyMatch_iff {r : Reaction} {e : String} :
    keyMatch r e = true ↔ keyOf r = some e := by
  simp [keyMatch]

theorem keyOf_freshReaction (e u : String) : keyOf (freshReaction e u) = some e := by
  simp [keyOf, freshReaction, jsOrS]

theorem keyOf_removeUpd (r : Reaction) (l : List String) :
    keyOf (removeUpd r l) = keyOf r := rfl

theorem keyOf_addUpd (u : String) (r : Reaction) :
    keyOf (addUpd u r) = keyOf r := rfl

theorem entryFor_nil (e : String) : entryFor [] e = none := rfl

theorem entryFor_cons_pos {r : Reaction} {rest : List Reaction} {e : String}
    (hk : keyMatch r e = true) : entryFor (r :: rest) e = some r :=
  List.find?_cons_of_pos _ hk

theorem entryFor_cons_neg {r : Reaction} {rest : List Reaction} {e : String}
    (hk : keyMatch r e = false) : entryFor (r :: rest) e = entryFor rest e :=
  List.find?_cons_of_neg _ (by simp [hk])

theorem participantsAt_nil (e : String) : participantsAt [] e = ∅ := rfl

theorem participantsAt_cons_pos {r : Reaction} {rest : List Reaction} {e : String}
    (hk : keyMatch r e = true) :
    participantsAt (r :: rest) e = (r.participants.getD []).toFinset := by
  simp [participantsAt, entryFor_cons_pos hk]

theorem participantsAt_cons_neg {r : Reaction} {rest : List Reaction} {e : String}
    (hk : keyMatch r e = false) :
    participantsAt (r :: rest) e = participantsAt rest e := by
  simp [participantsAt, entryFor_cons_neg hk]

theorem wfReactions_nil : wfReactions [] := by
  constructor
  · intro r hr; simp at hr
  · simp

theorem wfReactions_cons_iff {r : Reaction} {rest : List Reaction} :
    wfReactions (r :: rest) ↔
      reactionWf r ∧ keyOf r ∉ rest.map keyOf ∧ wfReactions rest := by
  constructor
  · rintro ⟨hall, hnd⟩
    rw [List.map_cons, List.nodup_cons] at hnd
    exact ⟨hall r (by simp), hnd.1, fun x hx => hall x (by simp [hx]), hnd.2⟩
  · rintro ⟨hr, hkey, hall, hnd⟩
    refine ⟨?_, ?_⟩
    · intro x hx
      rcases List.mem_cons.mp hx with rfl | hx
      · exact hr
      · exact hall x hx
    · rw [List.map_cons, List.nodup_cons]
      exact ⟨hkey, hnd⟩

/-- In a well-formed reactions list the derived count equals the size of
the derived participant set, for every emoji. -/
theorem countAt_eq_card_of_wf {rs : List Reaction} (hwf : wfReactions rs) (k : String) :
    countAt rs k = ((participantsAt rs k).card : Int) := by
  rcases h : entryFor rs k with _ | r
  · simp [countAt, participantsAt, h]
  · have hr : reactionWf r := hwf.1 r (List.mem_of_find?_eq_some h)
    obtain ⟨-, -, hnd, hcount⟩ := hr
    simp [countAt, participantsAt, h, hcount, List.toFinset_card_of_nodup hnd]

/-- Core semantics of `toggleReactionList` on a well-formed reactions list:
the toggled emoji's participant set flips membership of the user, an entry
is present exactly when its set is nonempty, well-formedness is preserved,
and every other emoji's entry is untouched. -/
theorem toggle_tally_core (e u : String) (rs : List Reaction) :
    wfReactions rs →
    (participantsAt (toggleReactionList e u rs) e =
      (if u ∈ participantsAt rs e then (participantsAt rs e).erase u
       else insert u (participantsAt rs e)))
  ∧ (entryFor (toggleReactionList e u rs) e = none ↔
      participantsAt (toggleReactionList e u rs) e = ∅)
  ∧ wfReactions (toggleReactionList e u rs)
  ∧ (∀ k, k ≠ e → entryFor (toggleReactionList e u rs) k = entryFor rs k)
  ∧ (∀ k', k' ∈ (toggleReactionList e u rs).map keyOf →
      k' ∈ rs.map keyOf ∨ k' = some e) := by
  induction rs with
  | nil =>
    intro _
    rw [toggle_nil]
    have hk : keyMatch (freshReaction e u) e = true :=
      keyMatch_iff.mpr (keyOf_freshReaction e u)
    refine ⟨?_, ?_, ?_, ?_, ?_⟩
    · rw [participantsAt_cons_pos hk, participantsAt_nil]
      simp [freshReaction]
    · rw [entryFor_cons_pos hk, participantsAt_cons_pos hk]
      simp [freshReaction]
    · rw [wfReactions_cons_iff]
      exact ⟨by simp [reactionWf, freshReaction], by simp, wfReactions_nil⟩
    · intro k hk'
      have hkm : keyMatch (freshReaction e u) k = false := by
        simp only [keyMatch, keyOf_freshReaction, beq_eq_false_iff_ne, ne_eq,
          Option.some.injEq]
        exact fun h => hk' h.symm
      rw [entryFor_cons_neg hkm]
    · intro k' hm
      simp only [List.map_cons, List.map_nil, List.mem_singleton] at hm
      exact Or.inr (by rw [hm, keyOf_freshReaction])
  | cons r rest ih =>
    intro hwf
    rw [wfReactions_cons_iff] at hwf
    obtain ⟨hr, hkey, hwfrest⟩ := hwf
    by_cases hk : keyMatch r e = true
    · have hkeyr : keyOf r = some e := keyMatch_iff.mp hk
      have hrestk : ∀ r' ∈ rest, keyMatch r' e = false := by
        intro r' hm
        by_contra hc
        have hc' : keyOf r' = some e :=
          keyMatch_iff.mp (by revert hc; cases keyMatch r' e <;> simp)
        exact hkey (by rw [hkeyr, ← hc']; exact List.mem_map_of_mem keyOf hm)
      obtain ⟨hpsome, hpne, hpnd, hpcount⟩ := hr
      by_cases hu : partsIncludes r u = true
      · have hmem : u ∈ r.participants.getD [] := by
          have := hu
          simp only [partsIncludes] at this
          exact List.elem_iff.mp this
        rw [toggle_cons_hit_mem hk hu]
        have hparts : participantsAt (r :: rest) e = (r.participants.getD []).toFinset :=
          participantsAt_cons_pos hk
        have humem : u ∈ participantsAt (r :: rest) e := by
          rw [hparts]; exact List.mem_toFinset.mpr hmem
        have hrestnone : entryFor rest e = none :=
          List.find?_eq_none.mpr fun x hx => by simp [hrestk x hx]
        by_cases hemp : ((r.participants.getD []).filter (fun p => p != u)).isEmpty = true
        · rw [if_pos hemp]
          have hall : ∀ x ∈ r.participants.getD [], x = u := by
            intro x hx
            by_contra hne
            have hxf : x ∈ (r.participants.getD []).filter (fun p => p != u) :=
              List.mem_filter.mpr ⟨hx, by simp [hne]⟩
            rw [List.isEmpty_iff] at hemp
            rw [hemp] at hxf
            simp at hxf
          have herase : (r.participants.getD []).toFinset.erase u = ∅ := by
            ext x
            simp only [Finset.mem_erase, List.mem_toFinset, Finset.not_mem_empty,
              iff_false, not_and]
            intro hxu hx
            exact hxu (hall x hx)
          refine ⟨?_, ?_, hwfrest, ?_, ?_⟩
          · rw [if_pos humem, hparts, herase]
            simp [participantsAt, hrestnone]
          · simp [hrestnone, participantsAt]
          · intro k hk'
            rw [entryFor_cons_neg (show keyMatch r k = false by
              simp [keyMatch, hkeyr]
              exact fun h => (hk' h.symm).elim)]
          · intro k' hm
            exact Or.inl (by simp only [List.map_cons, List.mem_cons]; exact Or.inr hm)
        · rw [if_neg hemp]
          have hkupd : keyMatch (removeUpd r ((r.participants.getD []).filter (fun p => p != u))) e = true := by
            rw [keyMatch_iff, keyOf_removeUpd]; exact hkeyr
          have hfilterset :
              ((r.participants.getD []).filter (fun p => p != u)).toFinset =
                (r.participants.getD []).toFinset.erase u := by
            ext x
            simp [List.mem_toFinset, List.mem_filter, Finset.mem_erase, and_comm]
          have hfilterne : (r.participants.getD []).filter (fun p => p != u) ≠ [] := by
            intro hc
            rw [← List.isEmpty_iff] at hc
            exact hemp hc
          refine ⟨?_, ?_, ?_, ?_, ?_⟩
          · rw [participantsAt_cons_pos hkupd, if_pos humem, hparts]
            simp only [removeUpd, Option.getD_some]
            rw [hfilterset]
          · rw [entryFor_cons_pos hkupd, participantsAt_cons_pos hkupd]
            simp only [removeUpd]
            constructor
            · intro h; simp at h
            · intro h
              simp only [Option.getD_some] at h
              obtain ⟨x, hx⟩ := List.exists_mem_of_ne_nil _ hfilterne
              have hxt : x ∈ (((r.participants.getD []).filter (fun p => p != u))).toFinset :=
                List.mem_toFinset.mpr hx
              rw [h] at hxt
              simp at hxt
          · rw [wfReactions_cons_iff]
            refine ⟨?_, ?_, hwfrest⟩
            · refine ⟨rfl, ?_, ?_, ?_⟩
              · simpa [removeUpd] using hfilterne
              · simpa [removeUpd] using hpnd.filter _
              · simp [removeUpd]
            · rw [keyOf_removeUpd]
              exact hkey
          · intro k hk'
            rw [entryFor_cons_neg (show keyMatch (removeUpd r _) k = false by
                simp [keyMatch, keyOf_removeUpd, hkeyr]
                exact fun h => (hk' h.symm).elim),
              entryFor_cons_neg (show keyMatch r k = false by
                simp [keyMatch, hkeyr]
                exact fun h => (hk' h.symm).elim)]
          · intro k' hm
            simp only [List.map_cons, List.mem_cons, keyOf_removeUpd] at hm ⊢
            exact Or.inl hm
      · have hnomem : u ∉ r.participants.getD [] := by
          intro hc
          exact hu (by simp only [partsIncludes]; exact List.elem_iff.mpr hc)
        rw [toggle_cons_hit_nomem hk (by revert hu; cases partsIncludes r u <;> simp)
          (fun r' hm => by simp [reactHit, hrestk r' hm])]
        have hkupd : keyMatch (addUpd u r) e = true := by
          rw [keyMatch_iff, keyOf_addUpd]; exact hkeyr
        have hparts : participantsAt (r :: rest) e = (r.participants.getD []).toFinset :=
          participantsAt_cons_pos hk
        have hunmem : u ∉ participantsAt (r :: rest) e := by
          rw [hparts]
          exact fun hc => hnomem (List.mem_toFinset.mp hc)
        refine ⟨?_, ?_, ?_, ?_, ?_⟩
        · rw [participantsAt_cons_pos hkupd, if_neg hunmem, hparts]
          simp only [addUpd]
          ext x
          simp [List.mem_toFinset, Finset.mem_insert, or_comm]
        · rw [entryFor_cons_pos hkupd, participantsAt_cons_pos hkupd]
          simp only [addUpd]
          constructor
          · intro h; simp at h
          · intro h
            simp only [Option.getD_some] at h
            have hut : u ∈ ((r.participants.getD [] ++ [u])).toFinset := by simp
            rw [h] at hut
            simp at hut
        · rw [wfReactions_cons_iff]
          refine ⟨?_, ?_, hwfrest⟩
          · refine ⟨rfl, by simp [addUpd], ?_, ?_⟩
            · simp only [addUpd, Option.getD_some]
              rw [List.nodup_append]
              exact ⟨hpnd, List.nodup_singleton u,
                fun a ha hb => by simp at hb; subst hb; exact hnomem ha⟩
            · simp only [addUpd, hpcount, Option.getD_some]
              simp
          · rw [keyOf_addUpd]
            exact hkey
        · intro k hk'
          rw [entryFor_cons_neg (show keyMatch (addUpd u r) k = false by
              simp [keyMatch, keyOf_addUpd, hkeyr]
              exact fun h => (hk' h.symm).elim),
            entryFor_cons_neg (show keyMatch r k = false by
              simp [keyMatch, hkeyr]
              exact fun h => (hk' h.symm).elim)]
        · intro k' hm
          simp only [List.map_cons, List.mem_cons, keyOf_addUpd] at hm ⊢
          exact Or.inl hm
    · have hkf : keyMatch r e = false := by revert hk; cases keyMatch r e <;> simp
      rw [toggle_cons_skip hkf]
      obtain ⟨ih1, ih2, ih3, ih4, ih5⟩ := ih hwfrest
      refine ⟨?_, ?_, ?_, ?_, ?_⟩
      · rw [participantsAt_cons_neg hkf, participantsAt_cons_neg hkf, ih1]
      · rw [entryFor_cons_neg hkf, participantsAt_cons_neg hkf]
        exact ih2
      · rw [wfReactions_cons_iff]
        refine ⟨hr, ?_, ih3⟩
        intro hc
        rcases ih5 (keyOf r) hc with h | h
        · exact hkey h
        · have : keyMatch r e = true := keyMatch_iff.mpr h
          rw [hkf] at this
          exact Bool.false_ne_true this
      · intro k hk'
        by_cases hk2 : keyMatch r k = true
        · rw [entryFor_cons_pos hk2, entryFor_cons_pos hk2]
        · have hk2f : keyMatch r k = false := by revert hk2; cases keyMatch r k <;> simp
          rw [entryFor_cons_neg hk2f, entryFor_cons_neg hk2f]
          exact ih4 k hk'
      · intro k' hm
        simp only [List.map_cons, List.mem_cons] at hm ⊢
        rcases hm with rfl | hm
        · exact Or.inl (Or.inl rfl)
        · rcases ih5 k' hm with h | h
          · exact Or.inl (Or.inr h)
          · exact Or.inr h

/-- Toggling twice restores the derived tally at every emoji, on a
well-formed reactions list. -/
theorem toggle_twice_tally (e u : String) (rs : List Reaction)
    (hwf : wfReactions rs) (k : String) :
    reactionTally (toggleReactionList e u (toggleReactionList e u rs)) k =
      reactionTally rs k := by
  obtain ⟨h1, -, h3, h4, -⟩ := toggle_tally_core e u rs hwf
  obtain ⟨g1, -, g3, g4, -⟩ := toggle_tally_core e u (toggleReactionList e u rs) h3
  have hpk : participantsAt (toggleReactionList e u (toggleReactionList e u rs)) k =
      participantsAt rs k := by
    by_cases hke : k = e
    · subst hke
      rw [g1, h1]
      by_cases hu : u ∈ participantsAt rs k
      · rw [if_pos hu]
        have hnon : u ∉ (participantsAt rs k).erase u := Finset.not_mem_erase u _
        rw [if_neg hnon, Finset.insert_erase hu]
      · rw [if_neg hu]
        have hin : u ∈ insert u (participantsAt rs k) := Finset.mem_insert_self u _
        rw [if_pos hin, Finset.erase_insert hu]
    · have e1 := h4 k hke
      have e2 := g4 k hke
      simp [participantsAt, e2, e1]
  have hck : countAt (toggleReactionList e u (toggleReactionList e u rs)) k =
      countAt rs k := by
    rw [countAt_eq_card_of_wf g3 k, countAt_eq_card_of_wf hwf k, hpk]
  simp [reactionTally, hpk, hck]

/-!  Lifting `addReaction` to the store level. -/

theorem reactMsgUpdate_uuid (e u : String) (m : Message) :
    (reactMsgUpdate e u m).uuid = m.uuid := rfl

theorem reactMsgUpdate_reactions (e u : String) (m : Message) :
    (reactMsgUpdate e u m).reactions =
      some (toggleReactionList e u (m.reactions.getD [])) := rfl

theorem addReaction_guard (nowMs : Int) (uuid e u : String) (st : MessageStoreState)
    (hg : uuid = "" ∨ e = "") : addReaction nowMs uuid e u st = st := by
  unfold addReaction
  rw [if_pos hg]

theorem addReaction_not_found (nowMs : Int) (uuid e u : String) (st : MessageStoreState)
    (hidx : st.messages.findIdx? (fun x => x.uuid == some uuid) = none) :
    addReaction nowMs uuid e u st = st := by
  unfold addReaction
  by_cases hg : uuid = "" ∨ e = ""
  · rw [if_pos hg]
  · rw [if_neg hg]
    simp only [hidx]

theorem addReaction_eq_set (nowMs : Int) (uuid e u : String) (st : MessageStoreState)
    (hg : ¬(uuid = "" ∨ e = "")) {i : Nat} {m : Message}
    (hidx : st.messages.findIdx? (fun x => x.uuid == some uuid) = some i)
    (hget : st.messages[i]? = some m) :
    addReaction nowMs uuid e u st =
      { st with
        messages := st.messages.set i (reactMsgUpdate e u m),
        lastUpdateTime := some nowMs } := by
  unfold addReaction
  rw [if_neg hg]
  simp only [hidx, hget]

/-- After a successful `addReaction`, looking the message up again yields
exactly the reaction-updated message. -/
theorem getMessageById_addReaction (nowMs : Int) (uuid e u : String)
    (st : MessageStoreState) (hg : ¬(uuid = "" ∨ e = "")) {m : Message}
    (hfound : getMessageById st uuid = some m) :
    getMessageById (addReaction nowMs uuid e u st) uuid =
      some (reactMsgUpdate e u m) := by
  have hfind : st.messages.find? (fun x => x.uuid == some uuid) = some m := hfound
  obtain ⟨i, hidx, hget⟩ := findIdx?_of_find?_eq_some hfind
  have hq := List.find?_some hfind
  have hq' : (fun x => x.uuid == some uuid) (reactMsgUpdate e u m) = true := by
    simp only [reactMsgUpdate_uuid]
    simpa using hq
  rw [addReaction_eq_set nowMs uuid e u st hg hidx hget]
  show (st.messages.set i (reactMsgUpdate e u m)).find? (fun x => x.uuid == some uuid) =
    some (reactMsgUpdate e u m)
  exact find?_of_findIdx?_getElem? (findIdx?_set_self hidx hq')
    (getElem?_set_self_of_lt hget)

/-- C2 (amended): for a cached message whose reactions list is well-formed
(at most one entry per emoji key, duplicate-free nonempty participant
lists, counts equal to list lengths), calling `addReaction` twice with the
same `(messageUuid, emoji, userId)` restores the message's derived
reaction tally — per-emoji count and participant set — to its state before
the first call. -/
theorem addReaction_twice_restores_tally (st : MessageStoreState) (uuid e u : String)
    (n1 n2 : Int)
    (hwf : wfReactions (reactionsOfOpt (getMessageById st uuid))) :
    ∀ k, msgTally (getMessageById (addReaction n2 uuid e u (addReaction n1 uuid e u st)) uuid) k =
      msgTally (getMessageById st uuid) k := by
  intro k
  by_cases hg : uuid = "" ∨ e = ""
  · rw [addReaction_guard n1 uuid e u st hg, addReaction_guard n2 uuid e u st hg]
  · rcases hfound : getMessageById st uuid with _ | m
    · have hn : st.messages.find? (fun x => x.uuid == some uuid) = none := hfound
      have hidx : st.messages.findIdx? (fun x => x.uuid == some uuid) = none := by
        rw [List.findIdx?_eq_none_iff]
        intro x hx
        have := List.find?_eq_none.mp hn x hx
        simpa using this
      rw [addReaction_not_found n1 uuid e u st hidx,
        addReaction_not_found n2 uuid e u st hidx, hfound]
    · have hwf' : wfReactions (m.reactions.getD []) := by
        rw [hfound] at hwf
        exact hwf
      have h1 := getMessageById_addReaction n1 uuid e u st hg hfound
      have h2 := getMessageById_addReaction n2 uuid e u (addReaction n1 uuid e u st) hg h1
      rw [h2]
      have hstep : reactionsOfOpt (some (reactMsgUpdate e u (reactMsgUpdate e u m))) =
          toggleReactionList e u (toggleReactionList e u (m.reactions.getD [])) := by
        simp [reactionsOfOpt, reactMsgUpdate_reactions]
      simp only [msgTally]
      rw [hstep]
      have hm : reactionsOfOpt (some m) = m.reactions.getD [] := rfl
      rw [hm]
      exact toggle_twice_tally e u _ hwf' k

/-- Witness for `addReaction_twice_restores_tally` at a concrete store. -/
theorem addReaction_twice_restores_tally_witness :
    wfReactions (reactionsOfOpt (getMessageById exStoreReacted "m1")) ∧
    msgTally (getMessageById (addReaction 2 "m1" "x" "u" (addReaction 1 "m1" "x" "u" exStoreReacted)) "m1") "x" =
      msgTally (getMessageById exStoreReacted "m1") "x" :=
  ⟨by decide,
   addReaction_twice_restores_tally exStoreReacted "m1" "x" "u" 1 2 (by decide) "x"⟩

/-- C2 counterexample: on the message `m1`, whose single well-formed
reaction entry is `x: {count 2, participants [u, a]}`, toggling `x` by `u`
twice yields participants `[a, u]` — the raw `reactions` value is *not*
returned to exactly its prior state (the participant order changed). -/
theorem addReaction_twice_cex :
    reactionsOfOpt (getMessageById (addReaction 0 "m1" "x" "u" (addReaction 0 "m1" "x" "u" exStoreReacted)) "m1") ≠
      reactionsOfOpt (getMessageById exStoreReacted "m1") := by decide

/-- C3: on a cached message with well-formed reactions, `addReaction`
removes the user from the emoji's participant set when present (the entry
disappearing exactly when the set empties) and adds the user otherwise
(creating the entry when absent), with the derived count tracking the set
size. -/
theorem addReaction_toggle_spec (st : MessageStoreState) (uuid e u : String)
    (n : Int) (m : Message) (huuid : uuid ≠ "") (he : e ≠ "")
    (hfound : getMessageById st uuid = some m)
    (hwf : wfReactions (m.reactions.getD [])) :
    ∃ m', getMessageById (addReaction n uuid e u st) uuid = some m' ∧
      m'.reactions = some (toggleReactionList e u (m.reactions.getD [])) ∧
      participantsAt (m'.reactions.getD []) e =
        (if u ∈ participantsAt (m.reactions.getD []) e
         then (participantsAt (m.reactions.getD []) e).erase u
         else insert u (participantsAt (m.reactions.getD []) e)) ∧
      (entryFor (m'.reactions.getD []) e = none ↔
        participantsAt (m'.reactions.getD []) e = ∅) ∧
      countAt (m'.reactions.getD []) e =
        ((participantsAt (m'.reactions.getD []) e).card : Int) ∧
      (∀ k, k ≠ e → entryFor (m'.reactions.getD []) k = entryFor (m.reactions.getD []) k) := by
  have hg : ¬(uuid = "" ∨ e = "") := by
    rintro (h | h)
    · exact huuid h
    · exact he h
  obtain ⟨h1, h2, h3, h4, -⟩ := toggle_tally_core e u (m.reactions.getD []) hwf
  have hre : (reactMsgUpdate e u m).reactions.getD [] =
      toggleReactionList e u (m.reactions.getD []) := by
    rw [reactMsgUpdate_reactions]
    rfl
  refine ⟨reactMsgUpdate e u m, getMessageById_addReaction n uuid e u st hg hfound,
    rfl, ?_, ?_, ?_, ?_⟩
  · rw [hre]; exact h1
  · rw [hre]; exact h2
  · rw [hre]; exact countAt_eq_card_of_wf h3 e
  · intro k hk; rw [hre]; exact h4 k hk

/-- Witness for `addReaction_toggle_spec`: the spec's scenario — toggling
👍 by "you" on a message with no prior reactions. -/
theorem addReaction_toggle_spec_witness :
    ("m1" : String) ≠ "" ∧ ("👍" : String) ≠ "" ∧
    getMessageById exStorePlain "m1" = some exMsgPlain ∧
    wfReactions (exMsgPlain.reactions.getD []) ∧
    (∃ m', getMessageById (addReaction 5 "m1" "👍" "you" exStorePlain) "m1" = some m' ∧
      m'.reactions = some (toggleReactionList "👍" "you" (exMsgPlain.reactions.getD [])) ∧
      participantsAt (m'.reactions.getD []) "👍" =
        (if "you" ∈ participantsAt (exMsgPlain.reactions.getD []) "👍"
         then (participantsAt (exMsgPlain.reactions.getD []) "👍").erase "you"
         else insert "you" (participantsAt (exMsgPlain.reactions.getD []) "👍")) ∧
      (entryFor (m'.reactions.getD []) "👍" = none ↔
        participantsAt (m'.reactions.getD []) "👍" = ∅) ∧
      countAt (m'.reactions.getD []) "👍" =
        ((participantsAt (m'.reactions.getD []) "👍").card : Int) ∧
      (∀ k, k ≠ "👍" → entryFor (m'.reactions.getD []) k = entryFor (exMsgPlain.reactions.getD []) k)) :=
  ⟨by decide, by decide, by decide, by decide,
   addReaction_toggle_spec exStorePlain "m1" "👍" "you" 5 exMsgPlain
     (by decide) (by decide) (by decide) (by decide)⟩

/-!  Uuid-distinctness preservation (claim C1). -/

theorem addMessageProcess_uuid (nowIso : String) (msg : Message) :
    (addMessageProcess nowIso msg).uuid = msg.uuid := rfl

theorem addMessagesProcess_uuid (msg : Message) :
    (addMessagesProcess msg).uuid = msg.uuid := rfl

theorem addMessage_preserves_noDupUuids (nowIso : String) (nowMs : Int)
    (msg : Message) (st : MessageStoreState) (h : NoDupUuids st.messages) :
    NoDupUuids (addMessage nowIso nowMs msg st).messages := by
  unfold addMessage
  split
  · exact h
  · split
    · exact h
    · rename_i hguard hany
      show ((addMessageProcess nowIso msg :: st.messages).map Message.uuid).Nodup
      rw [List.map_cons, List.nodup_cons, addMessageProcess_uuid]
      refine ⟨?_, h⟩
      intro hmem
      obtain ⟨m', hm', he⟩ := List.mem_map.mp hmem
      exact hany (List.any_eq_true.mpr ⟨m', hm', by simp [he]⟩)

theorem removeMessage_preserves_noDupUuids (nowMs : Int) (uuid : String)
    (st : MessageStoreState) (h : NoDupUuids st.messages) :
    NoDupUuids (removeMessage nowMs uuid st).messages := by
  unfold removeMessage
  split
  · exact h
  · dsimp only
    split
    · exact h
    · exact h.sublist ((List.filter_sublist _).map Message.uuid)

theorem addMessages_preserves_noDupUuids (nowMs : Int)
    (batch : List (Option Message)) (st : MessageStoreState)
    (h : NoDupUuids st.messages)
    (hok : (((batch.filterMap id).filter (fun m => jsTruthyS m.uuid)).map Message.uuid).Nodup) :
    NoDupUuids (addMessages nowMs batch st).messages := by
  unfold addMessages
  dsimp only
  split
  · show ((((batch.filterMap id).filter _).map addMessagesProcess ++ st.messages).map Message.uuid).Nodup
    rw [List.map_append, List.map_map]
    have hcomp : ((batch.filterMap id).filter
        (fun m => jsTruthyS m.uuid && !((st.messages.map Message.uuid).contains m.uuid))).map
          (Message.uuid ∘ addMessagesProcess) =
        ((batch.filterMap id).filter
          (fun m => jsTruthyS m.uuid && !((st.messages.map Message.uuid).contains m.uuid))).map
          Message.uuid := by
      apply List.map_congr_left
      intro a _
      exact addMessagesProcess_uuid a
    rw [hcomp]
    have hpre : (batch.filterMap id).filter
        (fun m => jsTruthyS m.uuid && !((st.messages.map Message.uuid).contains m.uuid)) =
        List.filter (fun m => !((st.messages.map Message.uuid).contains m.uuid))
          ((batch.filterMap id).filter (fun m => jsTruthyS m.uuid)) := by
      rw [List.filter_filter]
      apply List.filter_congr
      intro a _
      exact Bool.and_comm _ _
    have hsub : List.Sublist
        (((batch.filterMap id).filter
          (fun m => jsTruthyS m.uuid && !((st.messages.map Message.uuid).contains m.uuid))).map
            Message.uuid)
        (((batch.filterMap id).filter (fun m => jsTruthyS m.uuid)).map Message.uuid) := by
      rw [hpre]
      exact (List.filter_sublist _).map Message.uuid
    refine List.Nodup.append (hok.sublist hsub) h ?_
    intro x hx hx'
    obtain ⟨m', hm', he⟩ := List.mem_map.mp hx
    have hcond := List.of_mem_filter hm'
    have hnc := (Bool.and_eq_true_iff.mp hcond).2
    rw [he] at hnc
    have hc : (st.messages.map Message.uuid).contains x = true := List.elem_iff.mpr hx'
    rw [hc] at hnc
    simp at hnc
  · exact h

theorem applyMsgOps_cons (op : MsgOp) (rest : List MsgOp) (st : MessageStoreState) :
    applyMsgOps (op :: rest) st = applyMsgOps rest (applyMsgOp op st) := rfl

/-- C1 (amended): starting from a cache with pairwise-distinct uuids,
every sequence of `addMessage` / `addMessages` / `removeMessage` calls in
which each `addMessages` batch's valid entries carry pairwise-distinct
uuids leaves the cache free of duplicate uuids.  (Without the per-batch
condition the claim fails, see the counterexample.) -/
theorem msgOps_preserve_noDupUuids (ops : List MsgOp) (st : MessageStoreState)
    (h0 : NoDupUuids st.messages) (hok : ∀ op ∈ ops, MsgOpOk op) :
    NoDupUuids (applyMsgOps ops st).messages := by
  induction ops generalizing st with
  | nil => exact h0
  | cons op rest ih =>
    rw [applyMsgOps_cons]
    have hop : NoDupUuids (applyMsgOp op st).messages := by
      cases op with
      | add nowIso nowMs msg =>
        exact addMessage_preserves_noDupUuids nowIso nowMs msg st h0
      | addMany nowMs batch =>
        exact addMessages_preserves_noDupUuids nowMs batch st h0
          (hok _ (List.mem_cons_self _ _))
      | remove nowMs uuid =>
        exact removeMessage_preserves_noDupUuids nowMs uuid st h0
    exact ih _ hop (fun o ho => hok o (List.mem_cons_of_mem _ ho))

/-- Witness for `msgOps_preserve_noDupUuids` on a concrete op sequence. -/
theorem msgOps_preserve_noDupUuids_witness :
    NoDupUuids initialMessageStore.messages ∧
    (∀ op ∈ exOps, MsgOpOk op) ∧
    NoDupUuids (applyMsgOps exOps initialMessageStore).messages :=
  ⟨by decide, by decide,
   msgOps_preserve_noDupUuids exOps initialMessageStore (by decide) (by decide)⟩

/-- C1 counterexample: a single `addMessages` batch containing the same
new record twice inserts both copies — the cache then holds two entries
with uuid `"a"`, even though the starting cache (empty) had distinct
uuids. -/
theorem addMessages_batch_duplicate_cex :
    NoDupUuids initialMessageStore.messages ∧
    ¬ NoDupUuids (applyMsgOps [MsgOp.addMany 0 [some exMsgA, some exMsgA]]
        initialMessageStore).messages := by decide

/-!  Sync controller lemmas. -/

theorem addMessages_nil (nowMs : Int) (st : MessageStoreState) :
    addMessages nowMs [] st = st := rfl

theorem performSync_lastUpdate (dgt : Option String → Int) (inp : SyncInput) (s : SyncState) :
    (performSync dgt inp s).lastUpdate =
      (match inp.mRes with
       | Except.ok msgs =>
         if msgs.length > 0 then
           max s.lastUpdate
             (jsMaxIntList ((msgs.map processSyncMessage).map (fun m => dgt m.createdAt)))
         else s.lastUpdate
       | Except.error _ => s.lastUpdate) := by
  obtain ⟨mRes, pRes, nowMs⟩ := inp
  cases mRes <;> cases pRes <;> dsimp only [performSync] <;> (repeat' split) <;> rfl

theorem performSync_msgStore (dgt : Option String → Int) (inp : SyncInput) (s : SyncState) :
    (performSync dgt inp s).msgStore =
      (match inp.mRes with
       | Except.ok msgs =>
         if msgs.length > 0 then
           addMessages inp.nowMs ((msgs.map processSyncMessage).map some) s.msgStore
         else s.msgStore
       | Except.error _ => s.msgStore) := by
  obtain ⟨mRes, pRes, nowMs⟩ := inp
  cases mRes <;> cases pRes <;> dsimp only [performSync] <;> (repeat' split) <;> rfl

theorem performSync_partStore (dgt : Option String → Int) (inp : SyncInput) (s : SyncState) :
    (performSync dgt inp s).partStore =
      (match inp.pRes with
       | Except.ok ps =>
         if ps.length > 0 then
           ps.foldl (fun acc participant =>
             updateParticipant inp.nowMs (participant.uuid.getD "undefined") participant acc)
             s.partStore
         else s.partStore
       | Except.error _ => s.partStore) := by
  obtain ⟨mRes, pRes, nowMs⟩ := inp
  cases mRes <;> cases pRes <;> dsimp only [performSync] <;> (repeat' split) <;> rfl

/-- C4: the sync cursor never decreases: each cycle sets it to the max of
its prior value and the greatest fetched `createdAt`, a cycle that ingests
nothing leaves it unchanged, and any sequence of cycles is monotone. -/
theorem performSync_cursor_monotone (dgt : Option String → Int) :
    (∀ inp s, s.lastUpdate ≤ (performSync dgt inp s).lastUpdate) ∧
    (∀ inp s msgs, inp.mRes = Except.ok msgs → msgs ≠ [] →
      (performSync dgt inp s).lastUpdate =
        max s.lastUpdate
          (jsMaxIntList ((msgs.map processSyncMessage).map (fun m => dgt m.createdAt)))) ∧
    (∀ inp s, (inp.mRes = Except.error () ∨ inp.mRes = Except.ok []) →
      (performSync dgt inp s).lastUpdate = s.lastUpdate) ∧
    (∀ inps s, s.lastUpdate ≤ (runSync dgt inps s).lastUpdate) := by
  have hle : ∀ inp s, s.lastUpdate ≤ (performSync dgt inp s).lastUpdate := by
    intro inp s
    rw [performSync_lastUpdate]
    cases hm : inp.mRes with
    | error e => exact le_refl _
    | ok msgs =>
      dsimp only
      split
      · exact le_max_left _ _
      · exact le_refl _
  refine ⟨hle, ?_, ?_, ?_⟩
  · intro inp s msgs hm hne
    rw [performSync_lastUpdate, hm]
    have hpos : msgs.length > 0 := List.length_pos.mpr hne
    simp [hpos]
  · intro inp s h
    rcases h with h | h
    · rw [performSync_lastUpdate, h]
    · rw [performSync_lastUpdate, h]
      simp
  · intro inps
    induction inps with
    | nil => intro s; exact le_refl _
    | cons i rest ih =>
      intro s
      exact le_trans (hle i s) (ih (performSync dgt i s))

/-- Witness for `performSync_cursor_monotone` at a concrete cycle. -/
theorem performSync_cursor_monotone_witness :
    exSyncState.lastUpdate ≤ (performSync exDgt exSyncInput exSyncState).lastUpdate ∧
    (performSync exDgt exSyncInput exSyncState).lastUpdate =
      max exSyncState.lastUpdate
        (jsMaxIntList (([exMsgA].map processSyncMessage).map (fun m => exDgt m.createdAt))) ∧
    exSyncState.lastUpdate ≤ (runSync exDgt [exSyncInput, exSyncInput] exSyncState).lastUpdate :=
  ⟨(performSync_cursor_monotone exDgt).1 exSyncInput exSyncState,
   (performSync_cursor_monotone exDgt).2.1 exSyncInput exSyncState [exMsgA] rfl (by decide),
   (performSync_cursor_monotone exDgt).2.2.2 [exSyncInput, exSyncInput] exSyncState⟩

/-- C5: delivering a session uuid different from the stored one clears the
message cache to 0 messages and the participant cache to 0 participants,
and resets the sync cursor to the current time. -/
theorem handleSessionChange_clears (nowMs : Int) (sessionUuid newSessionUuid : String)
    (s : SyncState) (hne : newSessionUuid ≠ sessionUuid) :
    (handleSessionChange nowMs sessionUuid newSessionUuid s).msgStore.messages.length = 0 ∧
    (handleSessionChange nowMs sessionUuid newSessionUuid s).partStore.participants.length = 0 ∧
    (handleSessionChange nowMs sessionUuid newSessionUuid s).lastUpdate = nowMs := by
  unfold handleSessionChange
  rw [if_pos hne]
  exact ⟨rfl, rfl, rfl⟩

/-- Witness for `handleSessionChange_clears` on a populated state. -/
theorem handleSessionChange_clears_witness :
    ("session-2" : String) ≠ "session-1" ∧
    ((handleSessionChange 999 "session-1" "session-2" exFullSyncState).msgStore.messages.length = 0 ∧
     (handleSessionChange 999 "session-1" "session-2" exFullSyncState).partStore.participants.length = 0 ∧
     (handleSessionChange 999 "session-1" "session-2" exFullSyncState).lastUpdate = 999) :=
  ⟨by decide,
   handleSessionChange_clears 999 "session-1" "session-2" exFullSyncState (by decide)⟩

/-- C6: message-delta and participant-delta application are independent
failure domains: fetched messages are applied to the message cache
whatever the participant result (including a rejection), and symmetrically
for participants. -/
theorem performSync_independent_failures (dgt : Option String → Int) (nowMs : Int)
    (s : SyncState) :
    (∀ msgs pRes,
      (performSync dgt ⟨Except.ok msgs, pRes, nowMs⟩ s).msgStore =
        addMessages nowMs ((msgs.map processSyncMessage).map some) s.msgStore) ∧
    (∀ ps mRes,
      (performSync dgt ⟨mRes, Except.ok ps, nowMs⟩ s).partStore =
        ps.foldl (fun acc participant =>
          updateParticipant nowMs (participant.uuid.getD "undefined") participant acc)
          s.partStore) := by
  constructor
  · intro msgs pRes
    rw [performSync_msgStore]
    dsimp only
    by_cases hlen : msgs.length > 0
    · rw [if_pos hlen]
    · rw [if_neg hlen]
      have hnil : msgs = [] :=
        List.length_eq_zero.mp (Nat.eq_zero_of_not_pos hlen)
      subst hnil
      rfl
  · intro ps mRes
    rw [performSync_partStore]
    dsimp only
    by_cases hlen : ps.length > 0
    · rw [if_pos hlen]
    · rw [if_neg hlen]
      have hnil : ps = [] :=
        List.length_eq_zero.mp (Nat.eq_zero_of_not_pos hlen)
      subst hnil
      rfl

/-- C7: the `setMessages` normalization step always produces some
identifier (synthesizing the fallback id when absent), defaults `text` to
`""`, `createdAt` to the ingestion time, `reactions` to `[]`, `status` to
`"sent"`, and always recomputes the reaction-derived field — in particular
a record missing `reactions` gets a present, false `hasReactions`, never
an absent one. -/
theorem setMessages_normalization (fallbackId nowIso : String) (msg : Message) :
    (setMessagesProcess fallbackId nowIso msg).uuid ≠ none ∧
    (msg.uuid = none → (setMessagesProcess fallbackId nowIso msg).uuid = some fallbackId) ∧
    (msg.text = none → (setMessagesProcess fallbackId nowIso msg).text = some "") ∧
    (msg.createdAt = none → (setMessagesProcess fallbackId nowIso msg).createdAt = some nowIso) ∧
    (msg.reactions = none → (setMessagesProcess fallbackId nowIso msg).reactions = some []) ∧
    (msg.status = none → (setMessagesProcess fallbackId nowIso msg).status = some "sent") ∧
    (setMessagesProcess fallbackId nowIso msg).hasReactions =
      some (decide ((msg.reactions.getD []).length > 0)) ∧
    (msg.reactions = none → (setMessagesProcess fallbackId nowIso msg).hasReactions = some false) := by
  refine ⟨?_, ?_, ?_, ?_, ?_, ?_, rfl, ?_⟩
  · cases h : msg.uuid with
    | none => simp [setMessagesProcess, jsOrS, h]
    | some s =>
      simp only [setMessagesProcess, jsOrS, h]
      split <;> simp
  · intro h; simp [setMessagesProcess, jsOrS, h]
  · intro h; simp [setMessagesProcess, jsOrS, h]
  · intro h; simp [setMessagesProcess, jsOrS, h]
  · intro h; simp [setMessagesProcess, h]
  · intro h; simp [setMessagesProcess, jsOrS, h]
  · intro h; simp [setMessagesProcess, h]

/-- Witness for `setMessages_normalization` on an all-absent raw record. -/
theorem setMessages_normalization_witness :
    (setMessagesProcess "fb" "t0" exRawEmpty).uuid ≠ none ∧
    (setMessagesProcess "fb" "t0" exRawEmpty).uuid = some "fb" ∧
    (setMessagesProcess "fb" "t0" exRawEmpty).text = some "" ∧
    (setMessagesProcess "fb" "t0" exRawEmpty).createdAt = some "t0" ∧
    (setMessagesProcess "fb" "t0" exRawEmpty).reactions = some [] ∧
    (setMessagesProcess "fb" "t0" exRawEmpty).status = some "sent" ∧
    (setMessagesProcess "fb" "t0" exRawEmpty).hasReactions = some false :=
  ⟨(setMessages_normalization "fb" "t0" exRawEmpty).1,
   (setMessages_normalization "fb" "t0" exRawEmpty).2.1 rfl,
   (setMessages_normalization "fb" "t0" exRawEmpty).2.2.1 rfl,
   (setMessages_normalization "fb" "t0" exRawEmpty).2.2.2.1 rfl,
   (setMessages_normalization "fb" "t0" exRawEmpty).2.2.2.2.1 rfl,
   (setMessages_normalization "fb" "t0" exRawEmpty).2.2.2.2.2.1 rfl,
   (setMessages_normalization "fb" "t0" exRawEmpty).2.2.2.2.2.2.2 rfl⟩

/-- C9: `updateMessage` never overwrites the stored author identity with
an empty value: when the update's participant is absent or carries no
(truthy) name, the message keeps its previous participant unchanged. -/
theorem updateMessage_preserves_author (st : MessageStoreState) (uuid : String)
    (updates : Message) (nowMs : Int) (i : Nat) (m : Message) (p : Participant)
    (hidx : st.messages.findIdx? (fun x => x.uuid == some uuid) = some i)
    (hget : st.messages[i]? = some m)
    (hpart : m.participant = some p)
    (hupd : participantNameTruthy updates.participant = false) :
    ∃ m', (updateMessage nowMs uuid updates st).messages[i]? = some m' ∧
      m'.participant = some p := by
  by_cases hu : uuid = ""
  · refine ⟨m, ?_, hpart⟩
    unfold updateMessage
    rw [if_pos hu]
    exact hget
  · unfold updateMessage
    rw [if_neg hu]
    simp only [hidx, hget]
    refine ⟨mergeMessage m updates, getElem?_set_self_of_lt hget, ?_⟩
    unfold mergeMessage
    cases hup : updates.participant with
    | none => simp [hup, hpart]
    | some q =>
      have hname : jsTruthyS q.name = false := by
        simpa [participantNameTruthy, hup] using hupd
      simp [hup, hname, hpart]

/-- Witness for `updateMessage_preserves_author` on a concrete update. -/
theorem updateMessage_preserves_author_witness :
    exStorePlain.messages.findIdx? (fun x => x.uuid == some "m1") = some 0 ∧
    exStorePlain.messages[0]? = some exMsgPlain ∧
    exMsgPlain.participant = some exAlice ∧
    participantNameTruthy exUpdates.participant = false ∧
    (∃ m', (updateMessage 7 "m1" exUpdates exStorePlain).messages[0]? = some m' ∧
      m'.participant = some exAlice) :=
  ⟨by decide, by decide, by decide, by decide,
   updateMessage_preserves_author exStorePlain "m1" exUpdates 7 0 exMsgPlain exAlice
     (by decide) (by decide) (by decide) (by decide)⟩

/-- C10: `setMessages` performs no duplicate suppression — it installs one
cache entry per object input element, in input order, so two input records
sharing a uuid produce two cache entries with that uuid. -/
theorem setMessages_no_dedup (fallback : Nat → String) (nowIso : String) (nowMs : Int)
    (msgs : List (Option Message)) (st : MessageStoreState) :
    ((setMessages fallback nowIso nowMs msgs st).messages.length = (msgs.filterMap id).length) ∧
    (∀ i, (setMessages fallback nowIso nowMs msgs st).messages[i]? =
      ((msgs.filterMap id)[i]?).map (setMessagesProcess (fallback i) nowIso)) ∧
    (∀ (i j : Nat) (mi mj : Message) (s' : String), i ≠ j →
      (msgs.filterMap id)[i]? = some mi → (msgs.filterMap id)[j]? = some mj →
      mi.uuid = some s' → mj.uuid = some s' → s' ≠ "" →
      ∃ mi' mj', (setMessages fallback nowIso nowMs msgs st).messages[i]? = some mi' ∧
        (setMessages fallback nowIso nowMs msgs st).messages[j]? = some mj' ∧
        mi'.uuid = some s' ∧ mj'.uuid = some s') := by
  have hmsgs : (setMessages fallback nowIso nowMs msgs st).messages =
      (msgs.filterMap id).enum.map (fun q => setMessagesProcess (fallback q.1) nowIso q.2) := rfl
  have hidx : ∀ i, (setMessages fallback nowIso nowMs msgs st).messages[i]? =
      ((msgs.filterMap id)[i]?).map (setMessagesProcess (fallback i) nowIso) := by
    intro i
    rw [hmsgs, List.getElem?_map, List.getElem?_enum]
    cases h : (msgs.filterMap id)[i]? <;> simp
  have huuid : ∀ i m s', m.uuid = some s' → s' ≠ "" →
      (setMessagesProcess (fallback i) nowIso m).uuid = some s' := by
    intro i m s' hm hs
    simp [setMessagesProcess, jsOrS, hm, hs]
  refine ⟨by rw [hmsgs]; simp, hidx, ?_⟩
  intro i j mi mj s' hij hi hj hmi hmj hs
  refine ⟨setMessagesProcess (fallback i) nowIso mi, setMessagesProcess (fallback j) nowIso mj,
    ?_, ?_, huuid i mi s' hmi hs, huuid j mj s' hmj hs⟩
  · rw [hidx i, hi]; rfl
  · rw [hidx j, hj]; rfl

/-- Witness for `setMessages_no_dedup`: an input repeating the record with
uuid `"a"` yields a cache with that uuid at two positions. -/
theorem setMessages_no_dedup_witness :
    ((setMessages (fun _ => "fb") "t0" 3 [some exMsgA, some exMsgA] initialMessageStore).messages.length =
      ([some exMsgA, some exMsgA].filterMap id).length) ∧
    (∃ mi' mj',
      (setMessages (fun _ => "fb") "t0" 3 [some exMsgA, some exMsgA] initialMessageStore).messages[0]? = some mi' ∧
      (setMessages (fun _ => "fb") "t0" 3 [some exMsgA, some exMsgA] initialMessageStore).messages[1]? = some mj' ∧
      mi'.uuid = some "a" ∧ mj'.uuid = some "a") :=
  ⟨(setMessages_no_dedup (fun _ => "fb") "t0" 3 [some exMsgA, some exMsgA] initialMessageStore).1,
   (setMessages_no_dedup (fun _ => "fb") "t0" 3 [some exMsgA, some exMsgA] initialMessageStore).2.2
     0 1 exMsgA exMsgA "a" (by decide) (by decide) (by decide) (by decide) (by decide) (by decide)⟩

/-- C8: a 404 from the reaction endpoint is converted by the API layer
into a non-error "endpoint not implemented" result, and the caller then
applies the reaction to the local cache only — no error reaches the
user. -/
theorem reaction404_local_fallback (response : HttpResponse) (nowMs : Int)
    (messageUuid emoji : String) (st : MessageStoreState)
    (hok : response.ok = false) (h404 : response.status = 404) :
    apiAddReaction response =
      Except.ok { success := some false, reason := some "endpoint_not_implemented" } ∧
    handleReact nowMs messageUuid emoji (apiAddReaction response) st =
      addReaction nowMs messageUuid emoji "you" st := by
  have hresp : apiAddReaction response =
      Except.ok { success := some false, reason := some "endpoint_not_implemented" } := by
    unfold apiAddReaction handleApiResponse
    rw [hok]
    simp [h404]
  refine ⟨hresp, ?_⟩
  rw [hresp]
  unfold handleReact
  simp

/-- Witness for `reaction404_local_fallback` on a concrete 404 response. -/
theorem reaction404_local_fallback_witness :
    exResponse404.ok = false ∧ exResponse404.status = 404 ∧
    apiAddReaction exResponse404 =
      Except.ok { success := some false, reason := some "endpoint_not_implemented" } ∧
    handleReact 9 "m1" "x" (apiAddReaction exResponse404) exStorePlain =
      addReaction 9 "m1" "x" "you" exStorePlain :=
  ⟨rfl, rfl,
   (reaction404_local_fallback exResponse404 9 "m1" "x" exStorePlain rfl rfl).1,
   (reaction404_local_fallback exResponse404 9 "m1" "x" exStorePlain rfl rfl).2⟩
